import Mathlib

/-!
Verification development for the markdown code-block linter (`main.py`).

The program is embedded shallowly: documents are lists of characters
(`List Char`), and each Python function of the source is translated into an
executable Lean definition of the same name where possible.  The scanner
`find_code_blocks` is driven in the source by the Python regular expression

  `^(\s*)(three backticks|three tildes)(.*?)\s*\n(.*?)(^\s*\2\s*$)`

compiled with DOTALL and MULTILINE, iterated with `finditer`.  The embedding
reproduces the backtracking semantics of that pattern explicitly:

* a match can only begin at a line start (MULTILINE caret);
* group 1 `(\s*)` greedily takes the maximal whitespace run (which may span
  preceding blank lines) and the three fence characters must follow it;
* group 3 `(.*?)` is lazy, so it ends at the last non-whitespace character of
  the opening fence line, and the following `\s*\n` greedily swallows the
  whitespace run after the tag up to and including the LAST newline of that
  run (so blank lines directly after the opening fence line are consumed);
* group 4 `(.*?)` is lazy, so the closing delimiter is the first subsequent
  line whose first non-whitespace characters are exactly the same three fence
  characters followed only by whitespace ; the trailing `\s*$` greedily
  swallows whitespace up to the last newline preceding the next
  non-whitespace character (or the end of the document).

Whitespace is the ASCII part of Python's `\s` (the documents involved are
ASCII).  Loops that advance a position index are written with an explicit
fuel argument (always called with fuel larger than the document length, so
the fuel never runs out) to keep every definition structurally recursive and
kernel-computable.
-/

/-- The backtick character (written via its code point). -/
def btick : Char := Char.ofNat 96

/-- ASCII whitespace as matched by Python's `\s` and stripped by `str.strip`. -/
def isPySpace (c : Char) : Bool :=
  c = ' ' || c = '\t' || c = '\n' || c = '\r' || c = Char.ofNat 11 || c = Char.ofNat 12

/-- First index `j ≥ i` holding a non-whitespace character; `cs` is the suffix
of the content starting at `i`. -/
def scanNonWs : List Char → Nat → Option Nat
  | [], _ => none
  | c :: cs, i => if isPySpace c then scanNonWs cs (i + 1) else some i

/-- First non-whitespace position at or after `i`. -/
def firstNonWs (content : List Char) (i : Nat) : Option Nat :=
  scanNonWs (content.drop i) i

/-- First index `j ≥ i` holding the character `target`. -/
def scanChar (target : Char) : List Char → Nat → Option Nat
  | [], _ => none
  | c :: cs, i => if c = target then some i else scanChar target cs (i + 1)

/-- First newline position at or after `i`. -/
def firstNL (content : List Char) (i : Nat) : Option Nat :=
  scanChar '\n' (content.drop i) i

/-- Last index holding a newline in the list (indices offset by `i`). -/
def lastNLAux : List Char → Nat → Option Nat
  | [], _ => none
  | c :: cs, i =>
    match lastNLAux cs (i + 1) with
    | some j => some j
    | none => if c = '\n' then some i else none

/-- The half-open strSlice `content[a:b]`. -/
def strSlice (content : List Char) (a b : Nat) : List Char :=
  (content.drop a).take (b - a)

/-- Last newline position in `[a, b)`. -/
def lastNLIn (content : List Char) (a b : Nat) : Option Nat :=
  lastNLAux (strSlice content a b) a

/-- Python `str.strip()` restricted to ASCII whitespace. -/
def pyStrip (l : List Char) : List Char :=
  ((l.dropWhile isPySpace).reverse.dropWhile isPySpace).reverse

/-- Whether the MULTILINE caret `^` matches at position `p`. -/
def caretAt (content : List Char) (p : Nat) : Bool :=
  if p = 0 then true else decide (content.get? (p - 1) = some '\n')

/-- Python `str.split(sep)` (never returns an empty list). -/
def pySplitOn (sep : Char) : List Char → List (List Char)
  | [] => [[]]
  | c :: cs =>
    match pySplitOn sep cs with
    | [] => [[]]
    | h :: t => if c = sep then [] :: h :: t else (c :: h) :: t

/-- Python `'\n'.split` specialisation used by the source. -/
def pySplitNL (l : List Char) : List (List Char) :=
  pySplitOn '\n' l

/-- Python `'\n'.join`. -/
def pyJoinNL : List (List Char) → List Char
  | [] => []
  | [x] => x
  | x :: xs => x ++ '\n' :: pyJoinNL xs

/-- Python `str.splitlines()` for documents containing only `\n` line
terminators (the only terminator occurring in this development). -/
def pySplitLines (l : List Char) : List (List Char) :=
  if l = [] then [] else
  if l.getLast? = some '\n' then pySplitOn '\n' l.dropLast else pySplitOn '\n' l

/-- A scanner segment: the tuples `(is_code, lang, text)` that
`find_code_blocks` appends to `parts`. -/
structure Seg where
  isCode : Bool
  lang : List Char
  text : List Char
deriving DecidableEq, Repr

/-- `line[len(leading_spaces):] if line.startswith(' ' * len(leading_spaces))
else line` — the per-line indentation handling of `find_code_blocks`. -/
def stripLine (k : Nat) (line : List Char) : List Char :=
  if (List.replicate k ' ').isPrefixOf line then line.drop k else line

/-- Attempt to match the closing-delimiter group `(^\s*\2\s*$)` with the group
starting at position `t` (a line start).  Returns the end position of the
whole match: the regex's trailing greedy `\s*$` swallows whitespace up to the
last newline that precedes the next non-whitespace character, or up to the end
of the document. -/
def closeAt (content : List Char) (fc : Char) (t : Nat) : Option Nat :=
  match firstNonWs content t with
  | none => none
  | some g =>
    if strSlice content g (g + 3) = List.replicate 3 fc then
      match firstNonWs content (g + 3) with
      | none => some content.length
      | some e => lastNLIn content (g + 3) e
    else none

/-- Scan successive line starts from `t` for the first one at which the
closing-delimiter group matches (the lazy group 4 makes the regex commit to
the earliest one).  Returns the line start and the match end. -/
def findClose (content : List Char) (fc : Char) : Nat → Nat → Option (Nat × Nat)
  | 0, _ => none
  | fuel + 1, t =>
    match closeAt content fc t with
    | some v => some (t, v)
    | none =>
      match firstNL content t with
      | none => none
      | some j => findClose content fc fuel (j + 1)

/-- Attempt the whole pattern at position `s`.  On success returns the
produced code `Seg` together with the match end. -/
def matchAt (content : List Char) (s : Nat) : Option (Seg × Nat) :=
  if caretAt content s then
    match firstNonWs content s with
    | none => none
    | some f =>
      let fence3 := strSlice content f (f + 3)
      let fc? : Option Char :=
        if fence3 = List.replicate 3 btick then some btick
        else if fence3 = List.replicate 3 '~' then some '~' else none
      match fc? with
      | none => none
      | some fc =>
        match firstNL content (f + 3) with
        | none => none
        | some m =>
          -- `\s*\n` after the lazy tag group consumes through the LAST
          -- newline of the whitespace run following the tag.
          let runEnd := (firstNonWs content m).getD content.length
          match lastNLIn content m runEnd with
          | none => none
          | some j =>
            match findClose content fc (content.length + 2) (j + 1) with
            | none => none
            | some (t, v) =>
              let leading := (strSlice content s f).drop 1
              let langLine := pyStrip (strSlice content (f + 3) m)
              let code := strSlice content (j + 1) t
              let strippedLines := (pySplitNL code).map (stripLine leading.length)
              some (⟨true, langLine, '\n' :: pyJoinNL strippedLines⟩, v)
  else none

/-- Find the leftmost match beginning at position `p` or later: try each line
start in turn (the caret restricts match starts to line starts). -/
def findMatchFrom (content : List Char) : Nat → Nat → Option (Seg × Nat × Nat)
  | 0, _ => none
  | fuel + 1, p =>
    match (if caretAt content p then matchAt content p else none) with
    | some (part, v) => some (part, p, v)
    | none =>
      match firstNL content p with
      | none => none
      | some j => findMatchFrom content fuel (j + 1)

/-- The `finditer` loop of `find_code_blocks`: emit the prose gap before each
match, the code part, and finally the trailing prose. -/
def fcbLoop (content : List Char) : Nat → Nat → List Seg
  | 0, last =>
    if last < content.length then [⟨false, [], content.drop last⟩] else []
  | fuel + 1, last =>
    match findMatchFrom content (content.length + 2) last with
    | none =>
      if last < content.length then [⟨false, [], content.drop last⟩] else []
    | some (part, s, v) =>
      (if s > last then [⟨false, [], strSlice content last s⟩] else [])
        ++ part :: fcbLoop content fuel v

/-- `find_code_blocks` from the source. -/
def find_code_blocks (content : List Char) : List Seg :=
  fcbLoop content (content.length + 1) 0

/-- The string `"python"` as a character list (the target-language value used
throughout the examples). -/
def pythonL : List Char := "python".data

/-- The string `"nolint"`. -/
def nolintL : List Char := "nolint".data

/-- Python's substring test `needle in hay`. -/
def containsL (needle hay : List Char) : Bool :=
  hay.tails.any (fun t => needle.isPrefixOf t)

/-- `"# " if language == 'python' else "// "` — the comment marker chosen by
`join_code_blocks`. -/
def commentMark (language : List Char) : List Char :=
  if language = pythonL then "# ".data else "// ".data

/-- Turn a block into per-line comments, as `join_code_blocks` does for prose
parts and for non-matching or exempt code parts. -/
def commentize (mark text : List Char) : List Char :=
  pyJoinNL ((pySplitNL text).map (fun l => mark ++ l))

/-- The string contributed by one part inside `join_code_blocks`: the part's
text verbatim when it is code whose tag contains the target language as a
substring and does not contain `nolint`; a comment block otherwise. -/
def blockOf (language : List Char) (p : Seg) : List Char :=
  if p.isCode && containsL language p.lang && !containsL nolintL p.lang then
    p.text
  else
    commentize (commentMark language) p.text

/-- `join_code_blocks` from the source. -/
def join_code_blocks (parts : List Seg) (language : List Char) : List Char :=
  pyJoinNL (parts.map (blockOf language))

/-- The document-skipping test of `main` (line 154):
`not any(is_code for is_code, lang, _ in parts if lang.startswith(language))`. -/
def mainSkips (parts : List Seg) (language : List Char) : Bool :=
  !(parts.any fun p => language.isPrefixOf p.lang && p.isCode)

/-- One document's trip through `main` up to the analyzer hand-off: `none`
when `main` hits `continue` (the document is skipped, no linter invocation),
otherwise the `content_to_lint` buffer passed to the linter. -/
def processDoc (content language : List Char) : Option (List Char) :=
  let parts := find_code_blocks content
  if mainSkips parts language then none else some (join_code_blocks parts language)

/-- The buffers `main` hands to the external analyzer over a list of document
contents, in order. -/
def lintedBuffers (docs : List (List Char)) (language : List Char) :
    List (List Char) :=
  docs.filterMap (fun d => processDoc d language)

/-- Python `int(s)` on an optionally signed decimal numeral surrounded by
whitespace (the shape occurring in linter output; numeral underscores and
non-ASCII digits are out of scope). -/
def pyInt? (s : List Char) : Option Int :=
  let digitsVal : List Char → Option Int := fun ds =>
    if ds ≠ [] && ds.all (fun c => c.isDigit) then
      some (ds.foldl (fun acc c => acc * 10 + ((c.toNat : Int) - 48)) 0)
    else none
  match pyStrip s with
  | '-' :: ds => (digitsVal ds).map (fun n => -n)
  | '+' :: ds => digitsVal ds
  | ds => digitsVal ds

/-- `parse_python_output` from the source: split the linter output into lines,
split each line on `:`, and keep `(int(parts[1]) - 1, line)` when the second
field parses as an integer. -/
def parse_python_output (output : List Char) : List (Int × List Char) :=
  (pySplitNL output).filterMap fun line =>
    let fields := pySplitOn ':' line
    if fields.length > 1 then
      match pyInt? (fields.getD 1 []) with
      | some k => some (k - 1, line)
      | none => none
    else none

/-- Python `str.replace` (all occurrences; the needles used are nonempty, so
the empty-needle behaviour of Python is out of scope). -/
def replaceAllF (needle repl : List Char) : Nat → List Char → List Char
  | 0, l => l
  | _, [] => []
  | fuel + 1, c :: cs =>
    if needle ≠ [] && needle.isPrefixOf (c :: cs) then
      repl ++ replaceAllF needle repl fuel ((c :: cs).drop needle.length)
    else
      c :: replaceAllF needle repl fuel cs

/-- Python `str.replace` wrapper with sufficient fuel. -/
def replaceAll (needle repl l : List Char) : List Char :=
  replaceAllF needle repl (l.length + 1) l

/-- Python list indexing with negative-index wraparound; an index error (below
`-len`) yields `none` (cannot occur for linter line numbers, which are
positive). -/
def pyIdx (lines : List (List Char)) (i : Int) : Option (List Char) :=
  if 0 ≤ i then lines.get? i.toNat
  else if 0 ≤ i + lines.length then lines.get? (i + lines.length).toNat
  else none

/-- The reporting loop of `main` (lines 169-173): for each parsed error whose
line index is below the buffer's line count, emit the message with the temp
file name replaced by the document's path, paired with the buffer line quoted
underneath it. -/
def mainDisplay (contentToLint relpath output : List Char) :
    List (List Char × List Char) :=
  let lines := pySplitLines contentToLint
  (parse_python_output output).filterMap fun e =>
    if e.1 < (lines.length : Int) then
      match pyIdx lines e.1 with
      | some errorLine => some (replaceAll "temp.py".data relpath e.2, errorLine)
      | none => none
    else none

/-- Whether some document produces a nonempty error list, which is what makes
`main` return exit code 1; the external linter is abstracted as a function
from buffer to raw output. -/
def foundErrors (docs : List (List Char)) (language : List Char)
    (analyzer : List Char → List Char) : Bool :=
  (lintedBuffers docs language).any (fun b => parse_python_output (analyzer b) ≠ [])

/-- `get_markdown_files` from the source, over an abstract `os.walk` listing:
a list of `(root, files)` pairs.  A file is kept when its name ends in `.md`
and the ROOT (directory) string does not contain `"slides"`; the path is
`os.path.join(root, file)`, i.e. `root ++ "/" ++ file`. -/
def get_markdown_files (walk : List (List Char × List (List Char))) :
    List (List Char) :=
  walk.flatMap fun rf =>
    (rf.2.filter fun file =>
        (".md".data.isSuffixOf file) && !containsL "slides".data rf.1).map
      fun file => rf.1 ++ '/' :: file

/-! ### Concrete documents used in the theorems -/

/-- Example 1 of the specification: six lines, one python block. -/
def ex1 : List Char := "Intro\n```python\nimport os\nx=1\n```\nMore".data

/-- The synthetic buffer the program builds for `ex1` with target `python`. -/
def buf1 : List Char := join_code_blocks (find_code_blocks ex1) pythonL

/-- A document whose only code block is tagged `python nolint`. -/
def exNolintOnly : List Char := "```python nolint\nx=1\n```\n".data

/-- Example-2-style document: a `python nolint` block between prose lines. -/
def exNolint2 : List Char := "X\n```python nolint\nimport os\nx=1\n```\nY".data

/-- A fence indented by two spaces (after a prose line). -/
def exIndent : List Char := "a\n  ```python\n  x=1\n  ```\n".data

/-- An open fence at indentation zero whose closing line is indented. -/
def exClose : List Char := "```python\nx=1\n   ```\nrest".data

/-- An open fence whose only closing candidate has four backticks. -/
def exFour : List Char := "```python\nx=1\n````\nrest".data

/-- An opening delimiter run of four backticks. -/
def exFourOpen : List Char := "````python\nx=1\n```\n".data

/-- A tilde fence closed at a different indentation. -/
def exTilde : List Char := "~~~py\nx\n  ~~~\n".data

/-- A block tagged `mypython`: the target `python` is a substring but not a
starting segment of the tag. -/
def exMyPython : List Char := "```mypython\nx=1\n```\n".data

/-- A block tagged `python3`. -/
def exPython3 : List Char := "```python3\nx=1\n```\n".data

/-- A document with no code blocks at all. -/
def exPlain : List Char := "hello\n".data

/-! ### Lemmas about the splitting and joining primitives -/

theorem pySplitOn_cons_eq (sep c : Char) {cs y : List Char} {t : List (List Char)}
    (h : pySplitOn sep cs = y :: t) :
    pySplitOn sep (c :: cs) = if c = sep then [] :: y :: t else (c :: y) :: t := by
  simp only [pySplitOn, h]

theorem pySplitOn_ne_nil (sep : Char) (l : List Char) : pySplitOn sep l ≠ [] := by
  cases l with
  | nil => simp [pySplitOn]
  | cons c cs =>
    rcases h : pySplitOn sep cs with _ | ⟨y, t⟩
    · simp only [pySplitOn, h]
      simp
    · rw [pySplitOn_cons_eq sep c h]
      by_cases hc : c = sep <;> simp [hc]

theorem sep_not_mem_pySplitOn (sep : Char) (l : List Char) :
    ∀ x ∈ pySplitOn sep l, sep ∉ x := by
  induction l with
  | nil =>
    intro x hx
    simp [pySplitOn] at hx
    simp [hx]
  | cons c cs ih =>
    intro x hx
    rcases hsplit : pySplitOn sep cs with _ | ⟨y, t⟩
    · exact absurd hsplit (pySplitOn_ne_nil sep cs)
    · rw [pySplitOn_cons_eq sep c hsplit] at hx
      by_cases hc : c = sep
      · simp only [if_pos hc] at hx
        rcases List.mem_cons.mp hx with rfl | hx
        · simp
        · exact ih x (hsplit ▸ hx)
      · simp only [if_neg hc] at hx
        rcases List.mem_cons.mp hx with rfl | hx
        · intro hmem
          rcases List.mem_cons.mp hmem with rfl | hmem
          · exact hc rfl
          · exact ih y (hsplit ▸ List.mem_cons_self y t) hmem
        · exact ih x (hsplit ▸ List.mem_cons_of_mem y hx)

theorem pySplitOn_eq_singleton {sep : Char} {l : List Char} (h : sep ∉ l) :
    pySplitOn sep l = [l] := by
  induction l with
  | nil => simp [pySplitOn]
  | cons c cs ih =>
    have hc : c ≠ sep := fun hcc => h (hcc ▸ List.mem_cons_self c cs)
    have hcs : sep ∉ cs := fun hmem => h (List.mem_cons_of_mem c hmem)
    rw [pySplitOn_cons_eq sep c (ih hcs), if_neg hc]

theorem pySplitOn_append_sep (sep : Char) (a b : List Char) :
    pySplitOn sep (a ++ sep :: b) = pySplitOn sep a ++ pySplitOn sep b := by
  induction a with
  | nil =>
    rcases hb : pySplitOn sep b with _ | ⟨z, u⟩
    · exact absurd hb (pySplitOn_ne_nil sep b)
    · rw [List.nil_append, pySplitOn_cons_eq sep sep hb, if_pos rfl]
      simp [pySplitOn, hb]
  | cons c cs ih =>
    rcases h : pySplitOn sep cs with _ | ⟨y, t⟩
    · exact absurd h (pySplitOn_ne_nil sep cs)
    · have hcat : pySplitOn sep (cs ++ sep :: b) =
          (y :: t) ++ pySplitOn sep b := by rw [ih, h]
      rcases hb : pySplitOn sep b with _ | ⟨z, u⟩
      · exact absurd hb (pySplitOn_ne_nil sep b)
      · rw [List.cons_append,
          pySplitOn_cons_eq sep c
            (by rw [hcat, hb]; rfl : pySplitOn sep (cs ++ sep :: b) = y :: (t ++ z :: u)),
          pySplitOn_cons_eq sep c h]
        by_cases hc : c = sep <;> simp [hc, hb]

theorem pyJoinNL_cons_cons (x y : List Char) (t : List (List Char)) :
    pyJoinNL (x :: y :: t) = x ++ '\n' :: pyJoinNL (y :: t) := rfl

theorem pySplitNL_pyJoinNL {ls : List (List Char)} (h : ls ≠ [])
    (hx : ∀ x ∈ ls, '\n' ∉ x) : pySplitNL (pyJoinNL ls) = ls := by
  induction ls with
  | nil => exact absurd rfl h
  | cons x t ih =>
    cases t with
    | nil =>
      show pySplitOn '\n' (pyJoinNL [x]) = [x]
      exact pySplitOn_eq_singleton (hx x (List.mem_cons_self x []))
    | cons y u =>
      rw [pyJoinNL_cons_cons]
      show pySplitOn '\n' (x ++ '\n' :: pyJoinNL (y :: u)) = x :: y :: u
      rw [pySplitOn_append_sep,
        pySplitOn_eq_singleton (hx x (List.mem_cons_self x (y :: u)))]
      have h2 : pySplitOn '\n' (pyJoinNL (y :: u)) = y :: u :=
        ih (by simp) (fun z hz => hx z (List.mem_cons_of_mem x hz))
      rw [h2]
      rfl

theorem pyJoinNL_pySplitNL (l : List Char) : pyJoinNL (pySplitNL l) = l := by
  induction l with
  | nil => rfl
  | cons c cs ih =>
    show pyJoinNL (pySplitOn '\n' (c :: cs)) = c :: cs
    rcases h : pySplitOn '\n' cs with _ | ⟨y, t⟩
    · exact absurd h (pySplitOn_ne_nil '\n' cs)
    · have hih : pyJoinNL (y :: t) = cs := by
        have := ih
        rwa [show pySplitNL cs = y :: t from h] at this
      rw [pySplitOn_cons_eq '\n' c h]
      by_cases hc : c = '\n'
      · rw [if_pos hc, pyJoinNL_cons_cons, hih, hc]
        rfl
      · rw [if_neg hc]
        cases t with
        | nil =>
          show c :: y = c :: cs
          rw [show y = pyJoinNL [y] from rfl, hih]
        | cons z u =>
          rw [pyJoinNL_cons_cons] at hih ⊢
          rw [List.cons_append, hih]

theorem pySplitOn_pieces (sep : Char) (l : List Char) :
    (∀ x ∈ pySplitOn sep l, x <:+: l) ∧
      (∀ y t, pySplitOn sep l = y :: t → y <+: l) := by
  induction l with
  | nil =>
    constructor
    · intro x hx
      simp [pySplitOn] at hx
      simp [hx]
    · intro y t hyt
      simp [pySplitOn] at hyt
      simp [hyt.1]
  | cons c cs ih =>
    rcases hsplit : pySplitOn sep cs with _ | ⟨y, t⟩
    · exact absurd hsplit (pySplitOn_ne_nil sep cs)
    · by_cases hc : c = sep
      · have hres : pySplitOn sep (c :: cs) = [] :: y :: t := by
          rw [pySplitOn_cons_eq sep c hsplit, if_pos hc]
        constructor
        · intro x hx
          rw [hres] at hx
          rcases List.mem_cons.mp hx with rfl | hx
          · simp
          · exact List.infix_cons (ih.1 x (hsplit ▸ hx))
        · intro z u hzu
          rw [hres] at hzu
          injection hzu with h1 h2
          simp [← h1]
      · have hres : pySplitOn sep (c :: cs) = (c :: y) :: t := by
          rw [pySplitOn_cons_eq sep c hsplit, if_neg hc]
        have hy : y <+: cs := ih.2 y t hsplit
        constructor
        · intro x hx
          rw [hres] at hx
          rcases List.mem_cons.mp hx with rfl | hx
          · exact (List.cons_prefix_cons.mpr ⟨rfl, hy⟩).isInfix
          · have hmem : x ∈ pySplitOn sep cs := hsplit ▸ List.mem_cons_of_mem y hx
            exact List.infix_cons (ih.1 x hmem)
        · intro z u hzu
          rw [hres] at hzu
          injection hzu with h1 h2
          exact h1 ▸ List.cons_prefix_cons.mpr ⟨rfl, hy⟩

theorem mem_pySplitOn_isInfixOf {sep : Char} {x l : List Char}
    (hx : x ∈ pySplitOn sep l) : x <:+: l :=
  (pySplitOn_pieces sep l).1 x hx

theorem containsL_eq_true_of_isInfixOf {n h : List Char} (hi : n <:+: h) :
    containsL n h = true := by
  rcases List.infix_iff_prefix_suffix.mp hi with ⟨t, hpre, hsuf⟩
  unfold containsL
  rw [List.any_eq_true]
  exact ⟨t, (List.mem_tails t h).mpr hsuf, List.isPrefixOf_iff_prefix.mpr hpre⟩

/-! ### Lemmas about comment blocks and block selection -/

theorem newline_not_mem_commentMark (language : List Char) :
    '\n' ∉ commentMark language := by
  unfold commentMark
  split <;> decide

theorem commentMark_ne_nil (language : List Char) : commentMark language ≠ [] := by
  unfold commentMark
  split <;> decide

theorem commentize_lines {mark : List Char} (hm : '\n' ∉ mark) (text : List Char) :
    pySplitNL (commentize mark text) = (pySplitNL text).map (fun l => mark ++ l) := by
  unfold commentize
  apply pySplitNL_pyJoinNL
  · intro hmap
    exact pySplitOn_ne_nil '\n' text (List.map_eq_nil_iff.mp hmap)
  · intro x hx
    rcases List.mem_map.mp hx with ⟨y, hy, rfl⟩
    intro hmem
    rcases List.mem_append.mp hmem with hin | hin
    · exact hm hin
    · exact sep_not_mem_pySplitOn '\n' text y hy hin

theorem pyJoinNL_map_append_length (mark : List Char) (ls : List (List Char)) :
    ls ≠ [] →
      (pyJoinNL (ls.map (fun l => mark ++ l))).length
        = (pyJoinNL ls).length + ls.length * mark.length := by
  induction ls with
  | nil => intro h; cases h rfl
  | cons x t ih =>
    intro _
    cases t with
    | nil =>
      simp [pyJoinNL]
      omega
    | cons y u =>
      rw [List.map_cons, List.map_cons, pyJoinNL_cons_cons, pyJoinNL_cons_cons,
        List.length_append, List.length_cons, List.length_append, List.length_cons,
        ← List.map_cons (fun l => mark ++ l) y u, ih (by simp)]
      simp [List.length_cons]
      ring

theorem commentize_length (mark text : List Char) :
    (commentize mark text).length
      = text.length + (pySplitNL text).length * mark.length := by
  have h := pyJoinNL_map_append_length mark (pySplitNL text) (pySplitOn_ne_nil '\n' text)
  unfold commentize
  rw [show (pySplitNL text).map (fun l => mark ++ l)
      = List.map (fun l => mark ++ l) (pySplitNL text) from rfl] at h ⊢
  rw [h, pyJoinNL_pySplitNL]

theorem commentize_ne {mark : List Char} (hmark : mark ≠ []) (text : List Char) :
    commentize mark text ≠ text := by
  intro he
  have hlen := congrArg List.length he
  rw [commentize_length] at hlen
  have hpos : 0 < (pySplitNL text).length :=
    List.length_pos.mpr (pySplitOn_ne_nil '\n' text)
  have hmpos : 0 < mark.length := List.length_pos.mpr hmark
  have : 0 < (pySplitNL text).length * mark.length := Nat.mul_pos hpos hmpos
  omega

theorem blockOf_eq_text_iff (p : Seg) (language : List Char) :
    blockOf language p = p.text ↔
      p.isCode = true ∧ containsL language p.lang = true ∧
        containsL nolintL p.lang = false := by
  unfold blockOf
  by_cases h : p.isCode && containsL language p.lang && !containsL nolintL p.lang
  · rw [if_pos h]
    simp only [Bool.and_eq_true, Bool.not_eq_true'] at h
    simp [h.1.1, h.1.2, h.2]
  · rw [if_neg h]
    constructor
    · intro he
      exact absurd he (commentize_ne (commentMark_ne_nil language) p.text)
    · rintro ⟨h1, h2, h3⟩
      exact absurd (by simp [h1, h2, h3]) h

/-! ### Named constants used in the theorem statements -/

/-- The document path used when displaying diagnostics in the examples. -/
def relPathEx : List Char := "lessons/a.md".data

/-- A linter output line flagging buffer line 4, column 1. -/
def outLine4 : List Char := "temp.py:4:1: E225 missing whitespace around operator".data

/-- A linter output line flagging buffer line 5, column 3. -/
def outLine5 : List Char := "temp.py:5:3: E225 missing whitespace around operator".data

/-- The code segment the scanner produces for `exNolintOnly`. -/
def segNolint : Seg := ⟨true, "python nolint".data, "\nx=1\n".data⟩

/-- One line of the comment block produced for `segNolint`. -/
def lineNolint : List Char := "# x=1".data

/-- An `os.walk` listing with one directory and one file whose NAME contains
the word `slides` (but no path segment equals `slides`). -/
def walkEx : List (List Char × List (List Char)) :=
  [("docs".data, ["slides-intro.md".data])]

/-- The single path produced by `get_markdown_files walkEx`. -/
def pathEx : List Char := "docs/slides-intro.md".data

/-! ### The claims -/

/-- Claim C1: the specification asserts that for every document and target
language the reconstructed buffer has exactly as many lines as the document,
each document line at the same ordinal position.  The code violates this
invariant: on the specification's own six-line example document the buffer
built by `find_code_blocks` followed by `join_code_blocks` has eight lines
(each fence line of the document gives rise to two buffer lines: the empty
trailing comment of the adjacent prose block and the empty line produced by
the joining newline next to the code block's own padding newline). -/
theorem C1_line_count_violated :
    (pySplitLines ex1).length = 6 ∧ (pySplitLines buf1).length = 8 :=
  ⟨by decide, by decide⟩

/-- Claim C2: the specification's Example 1 predicts the buffer
`["# Intro", "#", "import os", "x=1", "#", "# More"]` and that a diagnostic at
buffer line 4 is displayed with source text `x=1`.  The code actually produces
an eight-line buffer whose line 4 is `import os`, and a diagnostic reported at
line 4 is displayed with the text `import os`, not `x=1` (the program's own
`x=1` sits at buffer line 5 while the document's `x=1` is line 4). -/
theorem C2_example1_divergence :
    buf1 = "# Intro\n# \n\nimport os\nx=1\n\n# \n# More".data ∧
    pySplitLines buf1 ≠
      ["# Intro".data, "#".data, "import os".data, "x=1".data, "#".data,
        "# More".data] ∧
    mainDisplay buf1 relPathEx outLine4 =
      [("lessons/a.md:4:1: E225 missing whitespace around operator".data,
        "import os".data)] ∧
    ("import os".data : List Char) ≠ "x=1".data :=
  ⟨by decide, by decide, by decide, by decide⟩

/-- Claim C3 counterexample: the claim states that the concatenation of the
segments' texts reconstructs the document exactly; for the example document it
does not (the fence lines are dropped and replaced by padding newlines in the
code segment's stored text). -/
theorem C3_concat_counterexample :
    ((find_code_blocks ex1).map Seg.text).flatten ≠ ex1 := by
  decide

/-- Claim C3, amended: segments are produced in document order, prose
segments are verbatim slices of the document (including the trailing
newline up to the fence line), but the code segment's stored text is already
transformed — the fence lines are dropped, a single padding newline is
prepended, and indentation is stripped — so the concatenation of the stored
texts does not reconstruct the document. -/
theorem C3_segments_amended :
    find_code_blocks ex1 =
      [⟨false, [], "Intro\n".data⟩,
       ⟨true, pythonL, "\nimport os\nx=1\n".data⟩,
       ⟨false, [], "\nMore".data⟩] := by
  decide

/-- Claim C4 counterexample: the claim states that a document whose only
target-tagged segments are all exempt (`nolint`) is skipped with no analyzer
invocation.  In the code the skip test is `lang.startswith(language)`, which
is true for the tag `python nolint`, so the document is NOT skipped: the
analyzer is invoked on a fully commented buffer. -/
theorem C4_exempt_not_skipped :
    find_code_blocks exNolintOnly = [segNolint] ∧
    containsL nolintL segNolint.lang = true ∧
    processDoc exNolintOnly pythonL = some ("# \n# x=1\n# ".data) :=
  ⟨by decide, by decide, by decide⟩

/-- Claim C4, amended: a document is skipped (no analyzer invocation and no
failure contribution) exactly when it has no code segment whose tag starts
with the target language string; a document whose only target-tagged segments
are exempt is still handed to the analyzer. -/
theorem C4_skip_amended :
    (∀ (docs : List (List Char)) (language : List Char)
        (analyzer : List Char → List Char),
      (∀ d ∈ docs, processDoc d language = none) →
        lintedBuffers docs language = [] ∧
          foundErrors docs language analyzer = false) ∧
    (∀ (parts : List Seg) (language : List Char),
      mainSkips parts language = true ↔
        ∀ p ∈ parts, ¬(p.isCode = true ∧ language.isPrefixOf p.lang = true)) ∧
    (∀ (content language : List Char),
      processDoc content language = none ↔
        mainSkips (find_code_blocks content) language = true) ∧
    processDoc exNolintOnly pythonL ≠ none := by
  refine ⟨?_, ?_, ?_, by decide⟩
  · intro docs language analyzer hall
    have hbuf : lintedBuffers docs language = [] := by
      unfold lintedBuffers
      exact List.filterMap_eq_nil_iff.mpr hall
    refine ⟨hbuf, ?_⟩
    unfold foundErrors
    rw [hbuf]
    rfl
  · intro parts language
    unfold mainSkips
    rw [Bool.not_eq_true', List.any_eq_false]
    constructor
    · intro hall p hp ⟨h1, h2⟩
      have := hall p hp
      simp [h1, h2] at this
    · intro hall p hp hX
      rw [Bool.and_eq_true] at hX
      exact hall p hp ⟨hX.2, hX.1⟩
  · intro content language
    unfold processDoc
    by_cases h : mainSkips (find_code_blocks content) language
    · simp [h]
    · simp [h]

/-- Witness for the amended claim C4, at a one-document list containing a
document with no code blocks. -/
theorem C4_skip_amended_witness :
    lintedBuffers [exPlain] pythonL = [] ∧
      foundErrors [exPlain] pythonL (fun _ => []) = false :=
  C4_skip_amended.1 [exPlain] pythonL (fun _ => [])
    (fun d hd => by
      rw [List.mem_singleton] at hd
      subst hd
      decide)

/-- Claim C5 counterexample: the claim states that an exempt segment's lines
still occupy the same buffer positions as in the document and that its
language tag is normalized by stripping the exemption modifier.  Neither
holds: the stored tag of the `python nolint` block is the verbatim
`python nolint` (not `python`), and the document's line 3 (`import os`)
appears — commented — at buffer line 4, while buffer line 3 is an empty
comment placeholder. -/
theorem C5_exempt_counterexample :
    (find_code_blocks exNolint2).map Seg.lang =
      [[], "python nolint".data, []] ∧
    ("python nolint".data : List Char) ≠ pythonL ∧
    pySplitLines (join_code_blocks (find_code_blocks exNolint2) pythonL) =
      ["# X".data, "# ".data, "# ".data, "# import os".data, "# x=1".data,
        "# ".data, "# ".data, "# Y".data] ∧
    (pySplitLines exNolint2).get? 2 = some ("import os".data) ∧
    (pySplitLines (join_code_blocks (find_code_blocks exNolint2) pythonL)).get? 2
      = some ("# ".data) ∧
    (pySplitLines (join_code_blocks (find_code_blocks exNolint2) pythonL)).get? 3
      = some ("# import os".data) :=
  ⟨by decide, by decide, by decide, by decide, by decide, by decide⟩

/-- Claim C5, amended: a code segment whose tag contains the exemption keyword
never contributes a verbatim line to the buffer — every line of the block it
contributes to `join_code_blocks` starts with the comment marker of the target
language; however the lines do not in general keep their document positions,
and the stored tag keeps the exemption modifier verbatim. -/
theorem C5_exempt_commented :
    ∀ (p : Seg) (language : List Char), containsL nolintL p.lang = true →
      ∀ l ∈ pySplitNL (blockOf language p),
        (commentMark language).isPrefixOf l = true := by
  intro p language hnl l hl
  have hsel : blockOf language p = commentize (commentMark language) p.text := by
    unfold blockOf
    rw [if_neg]
    intro hcond
    rw [Bool.and_eq_true, Bool.and_eq_true] at hcond
    rw [hnl] at hcond
    exact Bool.false_ne_true (by simpa using hcond.2)
  rw [hsel, commentize_lines (newline_not_mem_commentMark language)] at hl
  rcases List.mem_map.mp hl with ⟨y, _, rfl⟩
  exact List.isPrefixOf_iff_prefix.mpr (List.prefix_append _ y)

/-- Witness for the amended claim C5, at the `python nolint` segment of
`exNolintOnly` and the middle line of its comment block. -/
theorem C5_exempt_commented_witness :
    containsL nolintL segNolint.lang = true ∧
      (commentMark pythonL).isPrefixOf lineNolint = true :=
  ⟨by decide, C5_exempt_commented segNolint pythonL (by decide) lineNolint (by decide)⟩

/-- Claim C6 counterexample: the claim states that the displayed line text of
a mapped diagnostic equals `Document.lines[diagnostic.line - 1]`.  For the
example document, a diagnostic at line 5 is displayed with the text `x=1`
(the buffer's line 5), while the document's line 5 is the closing fence. -/
theorem C6_linetext_counterexample :
    mainDisplay buf1 relPathEx outLine5 =
      [("lessons/a.md:5:3: E225 missing whitespace around operator".data,
        "x=1".data)] ∧
    (pySplitLines ex1).get? 4 = some ("```".data) ∧
    ("x=1".data : List Char) ≠ "```".data :=
  ⟨by decide, by decide, by decide⟩

/-- Claim C6, amended: the line text attached to a displayed diagnostic is the
SYNTHETIC BUFFER's line at the diagnostic's 1-based line number (which differs
from the document's line when the reconstruction changes the line count), and
only the display path is substituted, the synthetic `temp.py` identifier being
replaced by the document's path throughout the message. -/
theorem C6_linetext_amended :
    (pySplitLines buf1).get? 4 = some ("x=1".data) ∧
    mainDisplay buf1 relPathEx outLine5 =
      [(replaceAll ("temp.py".data) relPathEx outLine5, "x=1".data)] ∧
    replaceAll ("temp.py".data) relPathEx outLine5 =
      "lessons/a.md:5:3: E225 missing whitespace around operator".data :=
  ⟨by decide, by decide, by decide⟩

/-- Claim C7 counterexample: the claim states that a closing line must carry
the same leading-whitespace-prefix length as the opening fence and that three
OR MORE fence characters close a block.  Both parts fail: in `exClose` the
block opened at indentation zero is closed by the line indented by three
spaces (a code segment is produced), and in `exFour` the four-backtick line
does not close the block, so the whole document is left as one prose
segment. -/
theorem C7_fence_counterexample :
    find_code_blocks exClose =
      [⟨true, pythonL, "\nx=1\n".data⟩, ⟨false, [], "\nrest".data⟩] ∧
    find_code_blocks exClose ≠ [⟨false, [], exClose⟩] ∧
    find_code_blocks exFour = [⟨false, [], exFour⟩] ∧
    find_code_blocks exFour ≠
      [⟨true, pythonL, "\nx=1\n".data⟩, ⟨false, [], "\nrest".data⟩] :=
  ⟨by decide, by decide, by decide, by decide⟩

/-- Claim C7, amended: a fence opens at a line of optional leading whitespace
followed by EXACTLY three identical fence characters (backtick or tilde); a
longer run still opens a fence but the surplus characters leak into the
language tag.  An open fence is closed by the next line whose first
non-whitespace characters are exactly those three fence characters followed
only by whitespace, regardless of the closing line's indentation. -/
theorem C7_fence_amended :
    find_code_blocks exTilde = [⟨true, "py".data, "\nx\n".data⟩] ∧
    find_code_blocks exFourOpen = [⟨true, "`python".data, "\nx=1\n".data⟩] ∧
    closeAt exClose btick 14 = some 20 ∧
    closeAt exFour btick 14 = none :=
  ⟨by decide, by decide, by decide, by decide⟩

/-- Claim C8 counterexample: the claim states that leading whitespace equal in
length to the fence's own indentation is stripped from each content line.  In
`exIndent` the fence is indented by two spaces but only ONE space is stripped
(the code drops the first character of the matched whitespace group before
measuring it), leaving `· x=1` instead of `x=1`. -/
theorem C8_indent_counterexample :
    find_code_blocks exIndent =
      [⟨false, [], "a\n".data⟩, ⟨true, pythonL, "\n x=1\n".data⟩] ∧
    find_code_blocks exIndent ≠
      [⟨false, [], "a\n".data⟩, ⟨true, pythonL, "\nx=1\n".data⟩] :=
  ⟨by decide, by decide⟩

/-- Claim C8, amended: the number of stripped characters is the length of the
matched leading-whitespace group MINUS ONE (`match.group(1)[1:]`), counted in
space characters; a content line is stripped exactly when it begins with that
many spaces, and any other content line passes through unmodified. -/
theorem C8_strip_amended :
    (∀ (k : Nat) (line : List Char),
      (List.replicate k ' ' <+: line ∧ stripLine k line = line.drop k) ∨
      (¬ List.replicate k ' ' <+: line ∧ stripLine k line = line)) ∧
    find_code_blocks exIndent =
      [⟨false, [], "a\n".data⟩, ⟨true, pythonL, "\n x=1\n".data⟩] := by
  refine ⟨?_, by decide⟩
  intro k line
  by_cases h : (List.replicate k ' ').isPrefixOf line
  · exact Or.inl ⟨List.isPrefixOf_iff_prefix.mp h, by rw [stripLine, if_pos h]⟩
  · refine Or.inr ⟨fun hpre => h (List.isPrefixOf_iff_prefix.mpr hpre), ?_⟩
    rw [stripLine, if_neg h]

/-- Claim C9: every path produced by the file collaborator ends in `.md` and
has no path segment equal to `slides` — the code tests `'slides' not in root`
on the directory string and `file.endswith('.md')` on the name, which together
guarantee the claim under the segment reading (a `.md` file name can never BE
the segment `slides`), provided file names contain no separator. -/
theorem C9_path_filter :
    ∀ (walk : List (List Char × List (List Char))),
      (∀ rv ∈ walk, ∀ f ∈ rv.2, '/' ∉ f) →
      ∀ p ∈ get_markdown_files walk,
        (".md".data.isSuffixOf p = true) ∧
          "slides".data ∉ pySplitOn '/' p := by
  intro walk hsep p hp
  unfold get_markdown_files at hp
  rcases List.mem_flatMap.mp hp with ⟨rv, hrv, hmem⟩
  rcases List.mem_map.mp hmem with ⟨f, hf, rfl⟩
  rcases List.mem_filter.mp hf with ⟨hfmem, hcond⟩
  rw [Bool.and_eq_true, Bool.not_eq_true'] at hcond
  obtain ⟨hmd, hslides⟩ := hcond
  have hfsuffix : f <:+ rv.1 ++ '/' :: f :=
    List.IsSuffix.trans (List.suffix_cons '/' f) (List.suffix_append rv.1 ('/' :: f))
  constructor
  · exact List.isSuffixOf_iff_suffix.mpr
      (List.IsSuffix.trans (List.isSuffixOf_iff_suffix.mp hmd) hfsuffix)
  · intro hseg
    rw [pySplitOn_append_sep] at hseg
    rcases List.mem_append.mp hseg with hin | hin
    · have hc : containsL "slides".data rv.1 = true :=
        containsL_eq_true_of_isInfixOf (mem_pySplitOn_isInfixOf hin)
      rw [hc] at hslides
      exact Bool.noConfusion hslides
    · rw [pySplitOn_eq_singleton (hsep rv hrv f hfmem)] at hin
      rw [List.mem_singleton] at hin
      rw [← hin] at hmd
      exact (by decide : (".md".data.isSuffixOf ("slides".data) : Bool) ≠ true) hmd

/-- Witness for claim C9: a walk listing with one directory `docs` holding the
file `slides-intro.md` — the file NAME contains the word, but no path segment
equals it, and the path is produced and satisfies the claim. -/
theorem C9_path_filter_witness :
    (".md".data.isSuffixOf pathEx = true) ∧
      "slides".data ∉ pySplitOn '/' pathEx :=
  C9_path_filter walkEx (by decide) pathEx (by decide)

/-- Claim C10 (implicit): language matching is substring-based in
`join_code_blocks` (a block is included verbatim iff the target is a substring
of its tag and `nolint` is not) but prefix-based in the skip decision of
`main`; hence `mypython` would be linted verbatim by the reconstruction while
the document is nevertheless skipped, whereas `python3` passes both tests and
a `python nolint` document is linted on a fully commented buffer. -/
theorem C10_matching_inconsistency :
    (∀ (p : Seg) (language : List Char),
      blockOf language p = p.text ↔
        p.isCode = true ∧ containsL language p.lang = true ∧
          containsL nolintL p.lang = false) ∧
    containsL pythonL ("mypython".data) = true ∧
    pythonL.isPrefixOf ("mypython".data) = false ∧
    processDoc exMyPython pythonL = none ∧
    join_code_blocks (find_code_blocks exMyPython) pythonL = "\nx=1\n".data ∧
    processDoc exPython3 pythonL = some ("\nx=1\n".data) ∧
    processDoc exNolintOnly pythonL = some ("# \n# x=1\n# ".data) :=
  ⟨blockOf_eq_text_iff, by decide, by decide, by decide, by decide, by decide,
    by decide⟩
